import Mathlib

/-!
Shallow embedding of the pmetrics shared-memory metrics store
(src/pmetrics/pmetrics.c).

The store keeps `Metric` entries (a composite `MetricKey` plus an `int64`
value) in a dshash table backed by a DSA arena.  The embedding models the
directory as a `List Metric` scanned with the extension's own comparison
function `metric_compare_dshash`; dshash itself, the DSA allocator and the
PostgreSQL `Jsonb` type are external collaborators of the repository, so
they are modelled at their interface boundary:

* DSA allocation is an `allocOk : Bool` oracle; `dsa_allocate` returning
  `InvalidDsaPointer` makes `metric_key_copy` raise an out-of-memory error.
  Following dshash, the key copy runs before the new item is linked into a
  bucket, so a failed insertion leaves no visible entry.
* `Jsonb` label documents are modelled as canonical lists of
  key / numeric-value fields together with their serialized byte string
  (`jsonbBytes`); a JSONB numeric carries a mantissa and a decimal display
  scale, so two documents can be semantically equal (equal numeric values)
  while their canonical serializations differ.
* C `double` arithmetic in the bucketing code is modelled over `ℚ` with the
  exact characterization of `ceil(log value / log gamma)` as the least
  `k` with `gamma ^ k ≥ value`; `(int)` casts are truncation toward zero.
-/

namespace PMetricsModel

/-! ## Jsonb label documents -/

/-- One field of a JSONB object in canonical form: a key and a numeric
value `mant * 10 ^ (-scale)` kept with its display scale, as PostgreSQL
numerics are. -/
structure JEntry where
  key : String
  mant : Int
  scale : Nat
deriving DecidableEq

/-- A JSONB label document in PostgreSQL canonical form (sorted unique
keys); the model keeps the field list. -/
structure Jsonb where
  entries : List JEntry
deriving DecidableEq

/-- Powers of ten on `Int`, used for comparing numerics at different
display scales. -/
def ipow10 : Nat → Int
  | 0 => 1
  | n + 1 => ipow10 n * 10

/-- Byte image of a string (UTF-8 code points as integers). -/
def nameBytes (s : String) : List Int :=
  s.data.map (fun c => (c.toNat : Int))

/-- Serialized bytes of one canonical JSONB field: key length, key bytes,
mantissa, display scale. -/
def encodeEntry (e : JEntry) : List Int :=
  ((e.key.length : Nat) : Int) :: (nameBytes e.key ++ [e.mant, (e.scale : Int)])

/-- Canonical serialized bytes of a JSONB document (the varlena payload
whose size `VARSIZE` reports). -/
def jsonbBytes (j : Jsonb) : List Int :=
  j.entries.foldr (fun e acc => encodeEntry e ++ acc) []

/-- Numeric-aware equality of two canonical fields: same key and the same
numeric value, display scale ignored. -/
def jnumEq (e1 e2 : JEntry) : Bool :=
  decide (e1.key = e2.key) && decide (e1.mant * ipow10 e2.scale = e2.mant * ipow10 e1.scale)

/-- Pointwise semantic equality of two canonical field lists. -/
def jsonbSemEqList : List JEntry → List JEntry → Bool
  | [], [] => true
  | e1 :: r1, e2 :: r2 => jnumEq e1 e2 && jsonbSemEqList r1 r2
  | _, _ => false

/-- Modelled from the spec: PostgreSQL `compareJsonbContainers`, the
semantics-aware deep comparison of two JSONB documents (not under `src/`;
the spec contrasts it with the byte-identical comparison used by the
directory).  Two documents compare equal when their fields agree
semantically, i.e. numeric values are compared by value with display
scale ignored.  Only the zero / nonzero distinction is observable in
`delete_metrics_by_name_labels`. -/
def compareJsonbContainers (j1 j2 : Jsonb) : Int :=
  if jsonbSemEqList j1.entries j2.entries then 0 else 1

/-! ## Metric keys -/

/-- `MetricType` from pmetrics.c. -/
inductive MetricType where
  | counter
  | gauge
  | histogram
  | histogramSum
deriving DecidableEq

/-- Ordinal of the C enum `MetricType`. -/
def typeVal : MetricType → Nat
  | .counter => 0
  | .gauge => 1
  | .histogram => 2
  | .histogramSum => 3

/-- The tagged union `LabelsLocation` plus its payload: no labels, a
caller-local probe pointer, or a DSA-resident handle.  Dereferencing a
pointer or handle yields the document it designates, so the payload is
carried directly. -/
inductive LabelsRef where
  | noLabels
  | localPtr (j : Jsonb)
  | dsaPtr (j : Jsonb)
deriving DecidableEq

/-- `MetricKey` from pmetrics.c: name (NAMEDATALEN char array), label
reference, metric type and bucket. -/
structure MetricKey where
  name : String
  labels : LabelsRef
  type : MetricType
  bucket : Int
deriving DecidableEq

/-- `Metric` from pmetrics.c: a key and an `int64` value. -/
structure Metric where
  key : MetricKey
  value : Int
deriving DecidableEq

/-- `get_labels_jsonb`: dereference whichever label variant is present. -/
def get_labels_jsonb (k : MetricKey) : Option Jsonb :=
  match k.labels with
  | .noLabels => Option.none
  | .localPtr j => some j
  | .dsaPtr j => some j

/-- `init_metric_key`: build a probe key from caller-local data; non-null
labels are referenced as `localPtr`, null labels become `noLabels`.
`strlcpy` bounds the stored name to NAMEDATALEN - 1 characters. -/
def init_metric_key (name : String) (labels : Option Jsonb)
    (type : MetricType) (bucket : Int) : MetricKey :=
  { name := name.take 63
    labels := match labels with
      | some j => .localPtr j
      | Option.none => .noLabels
    type := type
    bucket := bucket }

/-- Whether a label reference is in a form that may be persisted
(`Absent` or `ArenaResident`, never `LocalProbe`). -/
def stored_form : LabelsRef → Bool
  | .localPtr _ => false
  | _ => true

/-! ## The directory comparison function -/

/-- Three-way byte-wise comparison of two byte lists (`memcmp` /
`strcmp`). -/
def cmpList : List Int → List Int → Int
  | [], [] => 0
  | [], _ :: _ => -1
  | _ :: _, [] => 1
  | a :: as, b :: bs =>
    if a < b then -1 else if b < a then 1 else cmpList as bs

/-- `strcmp` on the stored name arrays. -/
def strcmpInt (a b : String) : Int :=
  cmpList (nameBytes a) (nameBytes b)

/-- Label comparison used by `metric_compare_dshash`: NULL orders first,
then `VARSIZE`, then `memcmp` of the serialized bytes. -/
def labelsCompare : Option Jsonb → Option Jsonb → Int
  | Option.none, Option.none => 0
  | Option.none, some _ => -1
  | some _, Option.none => 1
  | some j1, some j2 =>
    if (jsonbBytes j1).length ≠ (jsonbBytes j2).length then
      (if (jsonbBytes j1).length < (jsonbBytes j2).length then -1 else 1)
    else cmpList (jsonbBytes j1) (jsonbBytes j2)

/-- `metric_compare_dshash`: name, then type ordinal, then bucket, then
labels by size and bytes.  Both local probe keys and DSA stored keys are
dereferenced transparently through `get_labels_jsonb`. -/
def metric_compare_dshash (k1 k2 : MetricKey) : Int :=
  if strcmpInt k1.name k2.name ≠ 0 then strcmpInt k1.name k2.name
  else if typeVal k1.type ≠ typeVal k2.type then
    (if typeVal k1.type < typeVal k2.type then -1 else 1)
  else if k1.bucket ≠ k2.bucket then
    (if k1.bucket < k2.bucket then -1 else 1)
  else labelsCompare (get_labels_jsonb k1) (get_labels_jsonb k2)

/-- The lookup identity a key presents to the directory: name bytes,
type ordinal, bucket, and the serialized label bytes (location tag
erased). -/
def keyId (k : MetricKey) : List Int × Nat × Int × Option (List Int) :=
  (nameBytes k.name, typeVal k.type, k.bucket, (get_labels_jsonb k).map jsonbBytes)

/-! ## Histogram bucketing -/

/-- Iterated multiplication, the exact counterpart of C `pow` on the
rational model. -/
def qpow (g : ℚ) : Nat → ℚ
  | 0 => 1
  | n + 1 => qpow g n * g

/-- Search for the least exponent `k` (starting from the given `k`, with
enough fuel) such that `v ≤ g ^ k`. -/
def leastExpAux (g v : ℚ) : Nat → Nat → Nat
  | 0, k => k
  | fuel + 1, k => if v ≤ qpow g k then k else leastExpAux g v fuel (k + 1)

/-- Exact model of `ceil(log v / log g)` for `g > 1` and `v ≥ 1`: the
least `k` with `g ^ k ≥ v`.  The fuel `⌈(v-1)/(g-1)⌉ + 1` is sufficient
by Bernoulli's inequality (`ceil_log_spec` below). -/
def ceil_log (g v : ℚ) : Nat :=
  leastExpAux g v (((v - 1) / (g - 1)).num.toNat + 1) 0

/-- A C `(int)` / `(int64)` cast of a rational: truncation toward zero. -/
def truncRat (q : ℚ) : Int :=
  if 0 ≤ q.num then ((q.num.toNat / q.den : Nat) : Int)
  else -(((-q.num).toNat / q.den : Nat) : Int)

/-- Mathematical floor of a rational, used to state claims about
`floor(value)`. -/
def ratFloor (q : ℚ) : Int :=
  Int.fdiv q.num (q.den : Int)

/-- The bucketing parameters fixed at startup: `gamma_val` and the
(boundary-rounded) `buckets_upper_bound`. -/
structure BucketCfg where
  gam : ℚ
  ub : Int
deriving DecidableEq

/-- `gamma_val = (1 + bucket_variability) / (1 - bucket_variability)`
from `_PG_init`. -/
def gamma_val (variability : ℚ) : ℚ :=
  (1 + variability) / (1 - variability)

/-- `_PG_init` rounding of the configured upper bound to a bucket
boundary: `buckets_upper_bound = (int) pow(gamma, ceil(log ub / log gamma))`. -/
def init_buckets_upper_bound (g : ℚ) (ub : Int) : Int :=
  truncRat (qpow g (ceil_log g (ub : ℚ)))

/-- The bucket index computed by `bucket_for` (the C local `bucket`):
0 for values below 1, otherwise `ceil(log value / log gamma)`. -/
def bucket_index (cfg : BucketCfg) (value : ℚ) : Nat :=
  if value < 1 then 0 else ceil_log cfg.gam value

/-- The unclamped bucket upper bound (the C local
`this_bucket_upper_bound`): `(int) pow(gamma, bucket)`. -/
def raw_bucket_bound (cfg : BucketCfg) (value : ℚ) : Int :=
  truncRat (qpow cfg.gam (bucket_index cfg value))

/-- `bucket_for` from pmetrics.c.  Returns the bucket upper bound the
value falls into together with the truncation-notice flag (`elog NOTICE`
when the computed bound exceeds `buckets_upper_bound` and is clamped). -/
def bucket_for (cfg : BucketCfg) (value : ℚ) : Int × Bool :=
  if cfg.ub < raw_bucket_bound cfg value then (cfg.ub, true)
  else (raw_bucket_bound cfg value, false)

/-- The default configuration: `bucket_variability = 0.1` (so
`gamma = 11/9`) and `buckets_upper_bound = 30000` rounded to a boundary. -/
def default_config : BucketCfg :=
  { gam := gamma_val (1 / 10)
    ub := init_buckets_upper_bound (gamma_val (1 / 10)) 30000 }

/-! ## Store operations

The dshash directory is modelled as a `List Metric` searched with
`metric_compare_dshash`.  Mutating operations return the post-operation
table together with an `Except` result; an error raised inside an
operation (PostgreSQL `elog(ERROR)`) aborts it, and — since dshash copies
the key before linking a new item into its bucket — a failed insertion
leaves the visible table unchanged. -/

/-- Errors surfaced by the modelled operations. -/
inductive PMErr where
  | outOfMemory
deriving DecidableEq

/-- Whether a stored entry matches a probe key under the directory's
comparison function. -/
def key_matches (k : MetricKey) (m : Metric) : Bool :=
  metric_compare_dshash m.key k == 0

/-- `dshash_find`: the value of the first entry matching the key, if
any. -/
def lookupValue (st : List Metric) (k : MetricKey) : Option Int :=
  match st with
  | [] => Option.none
  | m :: rest => if key_matches k m then some m.value else lookupValue rest k

/-- `metric_key_copy`: deep-copy a probe key for insertion.  A
caller-local label payload is copied into the arena (rewriting the
reference to `dsaPtr`); when `dsa_allocate` fails the copy raises an
out-of-memory error.  Keys without local labels are copied verbatim. -/
def metric_key_copy (allocOk : Bool) (src : MetricKey) : Except PMErr MetricKey :=
  match src.labels with
  | .localPtr j =>
    if allocOk then .ok { src with labels := .dsaPtr j } else .error .outOfMemory
  | _ => .ok src

/-- The in-place mutation step of `dshash_find_or_insert` followed by a
caller update `f` of the entry value: update the first matching entry
and report the new value, or report that no entry matched. -/
def updateExisting (k : MetricKey) (f : Int → Int) :
    List Metric → Option (List Metric × Int)
  | [] => Option.none
  | m :: rest =>
    if key_matches k m then some (⟨m.key, f m.value⟩ :: rest, f m.value)
    else
      match updateExisting k f rest with
      | some (st, v) => some (m :: st, v)
      | Option.none => Option.none

/-- `increment_by`: find-or-insert the key built by `init_metric_key`,
add `amount` (a fresh entry starts from 0), and return the new value. -/
def increment_by (allocOk : Bool) (st : List Metric) (name : String)
    (labels : Option Jsonb) (type : MetricType) (bucket : Int)
    (amount : Int) : List Metric × Except PMErr Int :=
  let probe := init_metric_key name labels type bucket
  match updateExisting probe (fun v => v + amount) st with
  | some (st', v) => (st', .ok v)
  | Option.none =>
    match metric_key_copy allocOk probe with
    | .error e => (st, .error e)
    | .ok k => (st ++ [⟨k, amount⟩], .ok amount)

/-- `pmetrics_set_gauge`: find-or-insert for the `Gauge` kind and
overwrite the value unconditionally. -/
def pmetrics_set_gauge (allocOk : Bool) (st : List Metric) (name : String)
    (labels : Option Jsonb) (value : Int) : List Metric × Except PMErr Int :=
  let probe := init_metric_key name labels .gauge 0
  match updateExisting probe (fun _ => value) st with
  | some (st', v) => (st', .ok v)
  | Option.none =>
    match metric_key_copy allocOk probe with
    | .error e => (st, .error e)
    | .ok k => (st ++ [⟨k, value⟩], .ok value)

/-- `pmetrics_record_to_histogram`: one increment of the
`HistogramBucket` entry at `bucket_for value`, then one increment of the
`HistogramSum` entry at bucket 0 by the value cast to `int64`
(truncation toward zero).  An error in either increment aborts the call
at that point. -/
def pmetrics_record_to_histogram (cfg : BucketCfg) (a1 a2 : Bool)
    (st : List Metric) (name : String) (labels : Option Jsonb)
    (value : ℚ) : List Metric × Except PMErr Int :=
  let bucket := (bucket_for cfg value).1
  let r1 := increment_by a1 st name labels .histogram bucket 1
  match r1.2 with
  | .error e => (r1.1, .error e)
  | .ok cnt =>
    let r2 := increment_by a2 r1.1 name labels .histogramSum 0 (truncRat value)
    match r2.2 with
    | .error e => (r2.1, .error e)
    | .ok _ => (r2.1, .ok cnt)

/-- The per-entry match test of `delete_metrics_by_name_labels`: the
names must be `strcmp`-equal, and the label documents must either both
be absent or compare equal under `compareJsonbContainers`. -/
def delete_match (name : String) (labels : Option Jsonb) (k : MetricKey) : Bool :=
  (strcmpInt k.name name == 0) &&
    (match labels, get_labels_jsonb k with
     | Option.none, Option.none => true
     | some lj, some ej => compareJsonbContainers lj ej == 0
     | _, _ => false)

/-- The scan loop of `delete_metrics_by_name_labels`: drop every
matching entry and count the deletions. -/
def deleteLoop (name : String) (labels : Option Jsonb) :
    List Metric → List Metric × Int
  | [] => ([], 0)
  | m :: rest =>
    let r := deleteLoop name labels rest
    if delete_match name labels m.key then (r.1, r.2 + 1) else (m :: r.1, r.2)

/-- `delete_metrics_by_name_labels`: linear scan removing every entry
whose name and labels match, returning the deletion count. -/
def delete_metrics_by_name_labels (st : List Metric) (name : String)
    (labels : Option Jsonb) : List Metric × Int :=
  deleteLoop name labels st

/-- The scan loop of `pmetrics_clear_metrics`: delete every entry,
counting deletions. -/
def clearLoop : List Metric → Int → List Metric × Int
  | [], n => ([], n)
  | _ :: rest, n => clearLoop rest (n + 1)

/-- `pmetrics_clear_metrics`: remove every entry and return how many
were deleted. -/
def pmetrics_clear_metrics (st : List Metric) : List Metric × Int :=
  clearLoop st 0

/-! ## SQL-facing wrappers

Each wrapper mirrors one `PG_FUNCTION_INFO_V1` entry point.  A wrapper
that is gated on `pmetrics.enabled` returns SQL NULL (`Option.none`,
"not recorded") without touching the table when the GUC is false. -/

/-- `increment_counter(name, labels)`: gated on `pmetrics.enabled`. -/
def increment_counter (enabled allocOk : Bool) (st : List Metric)
    (name : String) (labels : Option Jsonb) :
    List Metric × Option (Except PMErr Int) :=
  if enabled then
    let r := increment_by allocOk st name labels .counter 0 1
    (r.1, some r.2)
  else (st, Option.none)

/-- `set_gauge(name, labels, value)`: gated on `pmetrics.enabled`. -/
def set_gauge (enabled allocOk : Bool) (st : List Metric) (name : String)
    (labels : Option Jsonb) (value : Int) :
    List Metric × Option (Except PMErr Int) :=
  if enabled then
    let r := pmetrics_set_gauge allocOk st name labels value
    (r.1, some r.2)
  else (st, Option.none)

/-- `record_to_histogram(name, labels, value)`: gated on
`pmetrics.enabled`. -/
def record_to_histogram (cfg : BucketCfg) (enabled a1 a2 : Bool)
    (st : List Metric) (name : String) (labels : Option Jsonb)
    (value : ℚ) : List Metric × Option (Except PMErr Int) :=
  if enabled then
    let r := pmetrics_record_to_histogram cfg a1 a2 st name labels value
    (r.1, some r.2)
  else (st, Option.none)

/-- `delete_metric(name, labels)`: gated on `pmetrics.enabled`. -/
def delete_metric (enabled : Bool) (st : List Metric) (name : String)
    (labels : Option Jsonb) : List Metric × Option Int :=
  if enabled then
    let r := delete_metrics_by_name_labels st name labels
    (r.1, some r.2)
  else (st, Option.none)

/-- `clear_metrics()`: the C entry point calls
`pmetrics_clear_metrics` directly and, unlike every other mutating
entry point, does not consult `pmetrics.enabled`. -/
def clear_metrics (st : List Metric) : List Metric × Option Int :=
  let r := pmetrics_clear_metrics st
  (r.1, some r.2)

/-! ## Derived definitions used by the verification -/

/-- Every entry of the table carries labels in a storable form
(`Absent` / `ArenaResident`). -/
def allStored : List Metric → Bool
  | [] => true
  | m :: rest => stored_form m.key.labels && allStored rest

/-- N successive calls of `increment_by` with amount 1 on the same
(name, labels, type, bucket), collecting the returned running values. -/
def repeat_increment (name : String) (labels : Option Jsonb)
    (type : MetricType) (bucket : Int) : Nat → List Metric → List Metric × List Int
  | 0, st => (st, [])
  | n + 1, st =>
    let r := increment_by true st name labels type bucket 1
    let rest := repeat_increment name labels type bucket n r.1
    (rest.1, (match r.2 with | .ok v => v | .error _ => 0) :: rest.2)

/-- The list `[start, start+1, ..., start+n-1]`. -/
def intRangeFrom (start : Int) : Nat → List Int
  | 0 => []
  | n + 1 => start :: intRangeFrom (start + 1) n

/-- The document `{"a": 1.0}`: field `a`, mantissa 10, display scale 1. -/
def j1ex : Jsonb := ⟨[⟨"a", 10, 1⟩]⟩

/-- The document `{"a": 1.00}`: field `a`, mantissa 100, display scale 2.
Semantically equal to `j1ex` but serialized differently. -/
def j2ex : Jsonb := ⟨[⟨"a", 100, 2⟩]⟩

/-- A stored key whose arena-resident labels are `j2ex`. -/
def storedKeyEx : MetricKey := ⟨"m", .dsaPtr j2ex, .counter, 0⟩

/-- A sample stored entry without labels. -/
def mEx : Metric := ⟨⟨"m", .noLabels, .counter, 0⟩, 5⟩

/-! ## Comparison lemmas -/

theorem cmpList_eq_zero_iff : ∀ a b : List Int, cmpList a b = 0 ↔ a = b := by
  intro a
  induction a with
  | nil =>
    intro b
    cases b with
    | nil => simp [cmpList]
    | cons y ys => simp [cmpList]
  | cons x xs ih =>
    intro b
    cases b with
    | nil => simp [cmpList]
    | cons y ys =>
      unfold cmpList
      by_cases hxy : x < y
      · simp only [if_pos hxy]
        constructor
        · intro h; omega
        · intro h
          rw [List.cons.injEq] at h
          omega
      · simp only [if_neg hxy]
        by_cases hyx : y < x
        · simp only [if_pos hyx]
          constructor
          · intro h; omega
          · intro h
            rw [List.cons.injEq] at h
            omega
        · simp only [if_neg hyx]
          have hxe : x = y := by omega
          subst hxe
          rw [ih ys]
          simp

theorem labelsCompare_eq_zero_iff :
    ∀ o1 o2 : Option Jsonb,
      labelsCompare o1 o2 = 0 ↔ o1.map jsonbBytes = o2.map jsonbBytes := by
  intro o1 o2
  cases o1 with
  | none =>
    cases o2 with
    | none => simp [labelsCompare]
    | some j2 => simp [labelsCompare]
  | some j1 =>
    cases o2 with
    | none => simp [labelsCompare]
    | some j2 =>
      unfold labelsCompare
      by_cases hlen : (jsonbBytes j1).length ≠ (jsonbBytes j2).length
      · simp only [if_pos hlen]
        constructor
        · intro h
          by_cases hlt : (jsonbBytes j1).length < (jsonbBytes j2).length
          · rw [if_pos hlt] at h; omega
          · rw [if_neg hlt] at h; omega
        · intro h
          have hb : jsonbBytes j1 = jsonbBytes j2 := by simpa using h
          exact absurd (congrArg List.length hb) hlen
      · simp only [if_neg hlen]
        rw [cmpList_eq_zero_iff]
        simp

theorem metric_compare_eq_zero_iff (k1 k2 : MetricKey) :
    metric_compare_dshash k1 k2 = 0 ↔ keyId k1 = keyId k2 := by
  unfold metric_compare_dshash keyId
  by_cases h1 : strcmpInt k1.name k2.name ≠ 0
  · simp only [if_pos h1]
    constructor
    · intro h; exact absurd h h1
    · intro h
      exfalso
      apply h1
      unfold strcmpInt
      rw [cmpList_eq_zero_iff]
      simpa using congrArg (fun p => p.1) h
  · simp only [if_neg h1]
    push_neg at h1
    have hn : nameBytes k1.name = nameBytes k2.name := by
      rw [← cmpList_eq_zero_iff]; exact h1
    by_cases h2 : typeVal k1.type ≠ typeVal k2.type
    · simp only [if_pos h2]
      constructor
      · intro h
        by_cases hlt : typeVal k1.type < typeVal k2.type
        · rw [if_pos hlt] at h; omega
        · rw [if_neg hlt] at h; omega
      · intro h
        exfalso
        apply h2
        simpa using congrArg (fun p => p.2.1) h
    · simp only [if_neg h2]
      push_neg at h2
      by_cases h3 : k1.bucket ≠ k2.bucket
      · simp only [if_pos h3]
        constructor
        · intro h
          by_cases hlt : k1.bucket < k2.bucket
          · rw [if_pos hlt] at h; omega
          · rw [if_neg hlt] at h; omega
        · intro h
          exfalso
          apply h3
          simpa using congrArg (fun p => p.2.2.1) h
      · push_neg at h3
        simp only [if_neg (fun hc => hc h3 : ¬k1.bucket ≠ k2.bucket)]
        rw [labelsCompare_eq_zero_iff]
        constructor
        · intro h
          simp [Prod.ext_iff, hn, h2, h3, h]
        · intro h
          simpa using congrArg (fun p => p.2.2.2) h

theorem key_matches_iff (k : MetricKey) (m : Metric) :
    key_matches k m = true ↔ keyId m.key = keyId k := by
  unfold key_matches
  rw [beq_iff_eq]
  exact metric_compare_eq_zero_iff m.key k

/-! ## Table operation lemmas -/

theorem key_matches_mk (k : MetricKey) (k0 : MetricKey) (v : Int) :
    key_matches k ⟨k0, v⟩ = key_matches k ⟨k0, 0⟩ := rfl

theorem key_matches_true_of_keyId (k : MetricKey) (m : Metric)
    (h : keyId m.key = keyId k) : key_matches k m = true := by
  rw [key_matches_iff]; exact h

theorem key_matches_false_of_keyId (k : MetricKey) (m : Metric)
    (h : keyId m.key ≠ keyId k) : key_matches k m = false := by
  rw [Bool.eq_false_iff]
  intro hc
  exact h ((key_matches_iff k m).mp hc)

theorem lookupValue_nil (k : MetricKey) :
    lookupValue [] k = Option.none := rfl

theorem lookupValue_cons (m : Metric) (st : List Metric) (k : MetricKey) :
    lookupValue (m :: st) k =
      if key_matches k m then some m.value else lookupValue st k := rfl

theorem lookupValue_append_of_none (st : List Metric) (mNew : Metric)
    (k : MetricKey) (h : lookupValue st k = Option.none) :
    lookupValue (st ++ [mNew]) k =
      if key_matches k mNew then some mNew.value else Option.none := by
  induction st with
  | nil => rfl
  | cons m rest ih =>
    rw [lookupValue_cons] at h
    rw [List.cons_append, lookupValue_cons]
    by_cases hm : key_matches k m
    · rw [if_pos hm] at h; exact absurd h (by simp)
    · rw [if_neg hm] at h
      rw [if_neg hm]
      exact ih h

theorem lookupValue_append_of_some (st : List Metric) (mNew : Metric)
    (k : MetricKey) (v : Int) (h : lookupValue st k = some v) :
    lookupValue (st ++ [mNew]) k = some v := by
  induction st with
  | nil => exact absurd h (by simp [lookupValue])
  | cons m rest ih =>
    rw [lookupValue_cons] at h
    rw [List.cons_append, lookupValue_cons]
    by_cases hm : key_matches k m
    · rw [if_pos hm] at h ⊢; exact h
    · rw [if_neg hm] at h
      rw [if_neg hm]
      exact ih h

theorem updateExisting_none_iff (k : MetricKey) (f : Int → Int) :
    ∀ st : List Metric,
      updateExisting k f st = Option.none ↔ lookupValue st k = Option.none := by
  intro st
  induction st with
  | nil => simp [updateExisting, lookupValue]
  | cons m rest ih =>
    unfold updateExisting lookupValue
    by_cases hm : key_matches k m
    · simp [hm]
    · rw [if_neg hm, if_neg hm]
      rw [← ih]
      cases updateExisting k f rest with
      | none => simp
      | some r => simp

theorem updateExisting_found (k : MetricKey) (f : Int → Int) :
    ∀ (st : List Metric) (c : Int), lookupValue st k = some c →
      ∃ st', updateExisting k f st = some (st', f c)
        ∧ lookupValue st' k = some (f c)
        ∧ (∀ k2, keyId k2 ≠ keyId k → lookupValue st' k2 = lookupValue st k2)
        ∧ (∀ m ∈ st', ∃ m0 ∈ st, m.key = m0.key) := by
  intro st
  induction st with
  | nil => intro c h; exact absurd h (by simp [lookupValue])
  | cons m rest ih =>
    intro c h
    by_cases hm : key_matches k m
    · rw [lookupValue, if_pos hm] at h
      have hc : c = m.value := by
        have := h.symm
        simpa using this
      subst hc
      refine ⟨⟨m.key, f m.value⟩ :: rest, ?_, ?_, ?_, ?_⟩
      · unfold updateExisting
        rw [if_pos hm]
      · rw [lookupValue, key_matches_mk k m.key (f m.value),
          ← key_matches_mk k m.key m.value]
        rw [if_pos hm]
      · intro k2 hk2
        have hmk : keyId m.key = keyId k := (key_matches_iff k m).mp hm
        have hm2 : key_matches k2 m = false := by
          apply key_matches_false_of_keyId
          rw [hmk]
          exact fun hc2 => hk2 hc2.symm
        have hm2' : key_matches k2 (⟨m.key, f m.value⟩ : Metric) = false := by
          rw [key_matches_mk k2 m.key (f m.value), ← key_matches_mk k2 m.key m.value]
          exact hm2
        rw [lookupValue, lookupValue, hm2, hm2']
        simp
      · intro m' hm'
        rcases List.mem_cons.mp hm' with h1 | h1
        · exact ⟨m, List.mem_cons_self m rest, by rw [h1]⟩
        · exact ⟨m', List.mem_cons_of_mem m h1, rfl⟩
    · rw [lookupValue, if_neg hm] at h
      obtain ⟨st'', hue, hlook, hframe, hmem⟩ := ih c h
      refine ⟨m :: st'', ?_, ?_, ?_, ?_⟩
      · unfold updateExisting
        rw [if_neg hm, hue]
      · rw [lookupValue, if_neg hm]
        exact hlook
      · intro k2 hk2
        rw [lookupValue, lookupValue]
        by_cases hm2 : key_matches k2 m
        · rw [if_pos hm2, if_pos hm2]
        · rw [if_neg hm2, if_neg hm2]
          exact hframe k2 hk2
      · intro m' hm'
        rcases List.mem_cons.mp hm' with h1 | h1
        · exact ⟨m, List.mem_cons_self m rest, by rw [h1]⟩
        · obtain ⟨m0, hm0, hkey⟩ := hmem m' h1
          exact ⟨m0, List.mem_cons_of_mem m hm0, hkey⟩

theorem metric_key_copy_ok_keyId (aOk : Bool) (k k' : MetricKey)
    (h : metric_key_copy aOk k = .ok k') :
    keyId k' = keyId k ∧ stored_form k'.labels = true := by
  unfold metric_key_copy at h
  cases hk : k.labels with
  | noLabels =>
    rw [hk] at h
    simp only [Except.ok.injEq] at h
    subst h
    exact ⟨rfl, by simp [stored_form, hk]⟩
  | localPtr j =>
    rw [hk] at h
    cases aOk with
    | false => simp at h
    | true =>
      simp only [if_true, Except.ok.injEq] at h
      subst h
      constructor
      · unfold keyId get_labels_jsonb
        rw [hk]
      · simp [stored_form]
  | dsaPtr j =>
    rw [hk] at h
    simp only [Except.ok.injEq] at h
    subst h
    exact ⟨rfl, by simp [stored_form, hk]⟩

theorem metric_key_copy_true_ok (k : MetricKey) :
    ∃ k', metric_key_copy true k = .ok k' := by
  unfold metric_key_copy
  cases k.labels with
  | noLabels => exact ⟨k, rfl⟩
  | localPtr j => exact ⟨{ k with labels := .dsaPtr j }, by simp⟩
  | dsaPtr j => exact ⟨k, rfl⟩

theorem increment_by_eq (aOk : Bool) (st : List Metric) (name : String)
    (labels : Option Jsonb) (type : MetricType) (bucket amount : Int) :
    increment_by aOk st name labels type bucket amount =
      match updateExisting (init_metric_key name labels type bucket)
          (fun v => v + amount) st with
      | some (st', v) => (st', .ok v)
      | Option.none =>
        match metric_key_copy aOk (init_metric_key name labels type bucket) with
        | .error e => (st, .error e)
        | .ok k => (st ++ [⟨k, amount⟩], .ok amount) := rfl

theorem pmetrics_set_gauge_eq (aOk : Bool) (st : List Metric) (name : String)
    (labels : Option Jsonb) (value : Int) :
    pmetrics_set_gauge aOk st name labels value =
      match updateExisting (init_metric_key name labels .gauge 0)
          (fun _ => value) st with
      | some (st', v) => (st', .ok v)
      | Option.none =>
        match metric_key_copy aOk (init_metric_key name labels .gauge 0) with
        | .error e => (st, .error e)
        | .ok k => (st ++ [⟨k, value⟩], .ok value) := rfl

theorem increment_by_frame (aOk : Bool) (st : List Metric) (name : String)
    (labels : Option Jsonb) (type : MetricType) (bucket amount : Int)
    (k2 : MetricKey)
    (h : keyId k2 ≠ keyId (init_metric_key name labels type bucket)) :
    lookupValue (increment_by aOk st name labels type bucket amount).1 k2 =
      lookupValue st k2 := by
  rw [increment_by_eq]
  cases hl : lookupValue st (init_metric_key name labels type bucket) with
  | some c =>
    obtain ⟨st', hue, _, hframe, _⟩ :=
      updateExisting_found _ (fun v => v + amount) st c hl
    rw [hue]
    exact hframe k2 h
  | none =>
    rw [(updateExisting_none_iff _ _ st).mpr hl]
    cases hc : metric_key_copy aOk (init_metric_key name labels type bucket) with
    | error e => rfl
    | ok knew =>
      obtain ⟨hid, _⟩ := metric_key_copy_ok_keyId aOk _ knew hc
      cases hl2 : lookupValue st k2 with
      | some v => exact lookupValue_append_of_some st _ k2 v hl2
      | none =>
        rw [lookupValue_append_of_none st _ k2 hl2]
        rw [key_matches_false_of_keyId k2 ⟨knew, amount⟩ (by rw [hid]; exact fun hc2 => h hc2.symm)]
        simp

theorem increment_by_true_snd (st : List Metric) (name : String)
    (labels : Option Jsonb) (type : MetricType) (bucket amount : Int) :
    (increment_by true st name labels type bucket amount).2 =
      Except.ok ((lookupValue st (init_metric_key name labels type bucket)).getD 0 + amount) := by
  rw [increment_by_eq]
  cases hl : lookupValue st (init_metric_key name labels type bucket) with
  | some c =>
    obtain ⟨st', hue, _, _, _⟩ :=
      updateExisting_found _ (fun v => v + amount) st c hl
    rw [hue]
    simp
  | none =>
    rw [(updateExisting_none_iff _ _ st).mpr hl]
    obtain ⟨knew, hc⟩ := metric_key_copy_true_ok (init_metric_key name labels type bucket)
    rw [hc]
    simp

theorem increment_by_true_lookup (st : List Metric) (name : String)
    (labels : Option Jsonb) (type : MetricType) (bucket amount : Int) :
    lookupValue (increment_by true st name labels type bucket amount).1
        (init_metric_key name labels type bucket) =
      some ((lookupValue st (init_metric_key name labels type bucket)).getD 0 + amount) := by
  rw [increment_by_eq]
  cases hl : lookupValue st (init_metric_key name labels type bucket) with
  | some c =>
    obtain ⟨st', hue, hlook, _, _⟩ :=
      updateExisting_found _ (fun v => v + amount) st c hl
    rw [hue]
    exact hlook
  | none =>
    rw [(updateExisting_none_iff _ _ st).mpr hl]
    obtain ⟨knew, hc⟩ := metric_key_copy_true_ok (init_metric_key name labels type bucket)
    rw [hc]
    obtain ⟨hid, _⟩ := metric_key_copy_ok_keyId true _ knew hc
    rw [lookupValue_append_of_none st _ _ hl]
    rw [key_matches_true_of_keyId _ ⟨knew, amount⟩ hid]
    simp

theorem pmetrics_set_gauge_true_snd (st : List Metric) (name : String)
    (labels : Option Jsonb) (value : Int) :
    (pmetrics_set_gauge true st name labels value).2 = Except.ok value := by
  rw [pmetrics_set_gauge_eq]
  cases hl : lookupValue st (init_metric_key name labels .gauge 0) with
  | some c =>
    obtain ⟨st', hue, _, _, _⟩ :=
      updateExisting_found _ (fun _ => value) st c hl
    rw [hue]
  | none =>
    rw [(updateExisting_none_iff _ _ st).mpr hl]
    obtain ⟨knew, hc⟩ := metric_key_copy_true_ok (init_metric_key name labels .gauge 0)
    rw [hc]

theorem pmetrics_set_gauge_true_lookup (st : List Metric) (name : String)
    (labels : Option Jsonb) (value : Int) :
    lookupValue (pmetrics_set_gauge true st name labels value).1
        (init_metric_key name labels .gauge 0) = some value := by
  rw [pmetrics_set_gauge_eq]
  cases hl : lookupValue st (init_metric_key name labels .gauge 0) with
  | some c =>
    obtain ⟨st', hue, hlook, _, _⟩ :=
      updateExisting_found _ (fun _ => value) st c hl
    rw [hue]
    exact hlook
  | none =>
    rw [(updateExisting_none_iff _ _ st).mpr hl]
    obtain ⟨knew, hc⟩ := metric_key_copy_true_ok (init_metric_key name labels .gauge 0)
    rw [hc]
    obtain ⟨hid, _⟩ := metric_key_copy_ok_keyId true _ knew hc
    rw [lookupValue_append_of_none st _ _ hl]
    rw [key_matches_true_of_keyId _ ⟨knew, value⟩ hid]
    simp

/-! ## The stored-labels invariant -/

theorem allStored_iff (st : List Metric) :
    allStored st = true ↔ ∀ m ∈ st, stored_form m.key.labels = true := by
  induction st with
  | nil => simp [allStored]
  | cons m rest ih =>
    simp [allStored, ih]

theorem allStored_append_single (st : List Metric) (m : Metric)
    (h1 : allStored st = true) (h2 : stored_form m.key.labels = true) :
    allStored (st ++ [m]) = true := by
  rw [allStored_iff] at h1 ⊢
  intro m' hm'
  rcases List.mem_append.mp hm' with h | h
  · exact h1 m' h
  · rw [List.mem_singleton.mp h]
    exact h2

theorem increment_by_allStored (aOk : Bool) (st : List Metric) (name : String)
    (labels : Option Jsonb) (type : MetricType) (bucket amount : Int)
    (h : allStored st = true) :
    allStored (increment_by aOk st name labels type bucket amount).1 = true := by
  rw [increment_by_eq]
  cases hl : lookupValue st (init_metric_key name labels type bucket) with
  | some c =>
    obtain ⟨st', hue, _, _, hmem⟩ :=
      updateExisting_found _ (fun v => v + amount) st c hl
    rw [hue]
    rw [allStored_iff]
    intro m hm
    obtain ⟨m0, hm0, hkey⟩ := hmem m hm
    rw [hkey]
    exact (allStored_iff st).mp h m0 hm0
  | none =>
    rw [(updateExisting_none_iff _ _ st).mpr hl]
    cases hc : metric_key_copy aOk (init_metric_key name labels type bucket) with
    | error e => exact h
    | ok knew =>
      obtain ⟨_, hstored⟩ := metric_key_copy_ok_keyId aOk _ knew hc
      exact allStored_append_single st ⟨knew, amount⟩ h hstored

theorem pmetrics_set_gauge_allStored (aOk : Bool) (st : List Metric)
    (name : String) (labels : Option Jsonb) (value : Int)
    (h : allStored st = true) :
    allStored (pmetrics_set_gauge aOk st name labels value).1 = true := by
  rw [pmetrics_set_gauge_eq]
  cases hl : lookupValue st (init_metric_key name labels .gauge 0) with
  | some c =>
    obtain ⟨st', hue, _, _, hmem⟩ :=
      updateExisting_found _ (fun _ => value) st c hl
    rw [hue]
    rw [allStored_iff]
    intro m hm
    obtain ⟨m0, hm0, hkey⟩ := hmem m hm
    rw [hkey]
    exact (allStored_iff st).mp h m0 hm0
  | none =>
    rw [(updateExisting_none_iff _ _ st).mpr hl]
    cases hc : metric_key_copy aOk (init_metric_key name labels .gauge 0) with
    | error e => exact h
    | ok knew =>
      obtain ⟨_, hstored⟩ := metric_key_copy_ok_keyId aOk _ knew hc
      exact allStored_append_single st ⟨knew, value⟩ h hstored

/-! ## Delete and clear lemmas -/

theorem deleteLoop_filter (name : String) (labels : Option Jsonb) :
    ∀ st : List Metric,
      (deleteLoop name labels st).1 =
          st.filter (fun m => !(delete_match name labels m.key))
        ∧ (deleteLoop name labels st).2 =
          ((st.filter (fun m => delete_match name labels m.key)).length : Int) := by
  intro st
  induction st with
  | nil => exact ⟨rfl, rfl⟩
  | cons m rest ih =>
    obtain ⟨ih1, ih2⟩ := ih
    by_cases hm : delete_match name labels m.key
    · constructor
      · simp only [deleteLoop, hm, if_true, List.filter_cons, Bool.not_true,
          Bool.false_eq_true, if_false]
        exact ih1
      · simp only [deleteLoop, hm, if_true, List.filter_cons]
        rw [ih2]
        simp
    · constructor
      · simp only [deleteLoop, hm, if_false, List.filter_cons, Bool.not_false]
        rw [ih1]
        simp [hm]
      · simp only [deleteLoop, hm, if_false, List.filter_cons]
        rw [ih2]
        simp [hm]

theorem deleteLoop_count (name : String) (labels : Option Jsonb)
    (st : List Metric) :
    (deleteLoop name labels st).2 =
      (st.length : Int) - ((deleteLoop name labels st).1.length : Int) := by
  obtain ⟨h1, h2⟩ := deleteLoop_filter name labels st
  rw [h1, h2]
  have hsplit := List.length_eq_length_filter_add
    (l := st) (fun m => delete_match name labels m.key)
  beta_reduce at hsplit
  omega

theorem clearLoop_spec : ∀ (st : List Metric) (n : Int),
    clearLoop st n = ([], n + (st.length : Int)) := by
  intro st
  induction st with
  | nil => intro n; simp [clearLoop]
  | cons m rest ih =>
    intro n
    rw [clearLoop, ih (n + 1)]
    simp
    ring

theorem pmetrics_record_to_histogram_eq (cfg : BucketCfg) (a1 a2 : Bool)
    (st : List Metric) (name : String) (labels : Option Jsonb) (value : ℚ) :
    pmetrics_record_to_histogram cfg a1 a2 st name labels value =
      match (increment_by a1 st name labels .histogram ((bucket_for cfg value).1) 1).2 with
      | .error e =>
        ((increment_by a1 st name labels .histogram ((bucket_for cfg value).1) 1).1, .error e)
      | .ok cnt =>
        match (increment_by a2
            (increment_by a1 st name labels .histogram ((bucket_for cfg value).1) 1).1
            name labels .histogramSum 0 (truncRat value)).2 with
        | .error e =>
          ((increment_by a2
              (increment_by a1 st name labels .histogram ((bucket_for cfg value).1) 1).1
              name labels .histogramSum 0 (truncRat value)).1, .error e)
        | .ok _ =>
          ((increment_by a2
              (increment_by a1 st name labels .histogram ((bucket_for cfg value).1) 1).1
              name labels .histogramSum 0 (truncRat value)).1, .ok cnt) := rfl

theorem pmetrics_record_allStored (cfg : BucketCfg) (a1 a2 : Bool)
    (st : List Metric) (name : String) (labels : Option Jsonb) (value : ℚ)
    (h : allStored st = true) :
    allStored (pmetrics_record_to_histogram cfg a1 a2 st name labels value).1 = true := by
  rw [pmetrics_record_to_histogram_eq]
  have h1 := increment_by_allStored a1 st name labels .histogram
    ((bucket_for cfg value).1) 1 h
  cases h1e : (increment_by a1 st name labels .histogram ((bucket_for cfg value).1) 1).2 with
  | error e => exact h1
  | ok cnt =>
    have h2 := increment_by_allStored a2 _ name labels .histogramSum 0
      (truncRat value) h1
    cases h2e : (increment_by a2
        (increment_by a1 st name labels .histogram ((bucket_for cfg value).1) 1).1
        name labels .histogramSum 0 (truncRat value)).2 with
    | error e => exact h2
    | ok x => exact h2

theorem delete_allStored (st : List Metric) (name : String)
    (labels : Option Jsonb) (h : allStored st = true) :
    allStored (delete_metrics_by_name_labels st name labels).1 = true := by
  unfold delete_metrics_by_name_labels
  obtain ⟨h1, _⟩ := deleteLoop_filter name labels st
  rw [h1, allStored_iff]
  intro m hm
  exact (allStored_iff st).mp h m (List.mem_of_mem_filter hm)

theorem clear_allStored (st : List Metric) :
    allStored (pmetrics_clear_metrics st).1 = true := by
  unfold pmetrics_clear_metrics
  rw [clearLoop_spec st 0]
  rfl

/-! ## Characterization of the bucket index search

`ceil_log g v` really is the exact value of `ceil(log v / log g)` for
`g > 1`, `v ≥ 1`: the least `k` with `g ^ k ≥ v`.  This justifies the
fuel bound used in its definition. -/

theorem leastExpAux_succ (g v : ℚ) (fuel k : Nat) :
    leastExpAux g v (fuel + 1) k =
      if v ≤ qpow g k then k else leastExpAux g v fuel (k + 1) := rfl

theorem one_le_qpow (g : ℚ) (hg : 1 ≤ g) (n : Nat) : 1 ≤ qpow g n := by
  induction n with
  | zero => exact le_refl 1
  | succ n ih =>
    have : qpow g (n + 1) = qpow g n * g := rfl
    rw [this]
    nlinarith

theorem qpow_bernoulli (g : ℚ) (hg : 1 < g) (n : Nat) :
    1 + (n : ℚ) * (g - 1) ≤ qpow g n := by
  induction n with
  | zero => simp [qpow]
  | succ n ih =>
    have hq : qpow g (n + 1) = qpow g n * g := rfl
    rw [hq]
    have h1 : (1 : ℚ) ≤ qpow g n := one_le_qpow g hg.le n
    push_cast
    nlinarith

theorem leastExpAux_spec (g v : ℚ) : ∀ (fuel k : Nat),
    (∀ j, j < k → qpow g j < v) →
    (∃ m, k ≤ m ∧ m < k + fuel ∧ v ≤ qpow g m) →
    v ≤ qpow g (leastExpAux g v fuel k) ∧
      ∀ j, j < leastExpAux g v fuel k → qpow g j < v := by
  intro fuel
  induction fuel with
  | zero =>
    intro k _ hex
    obtain ⟨m, h1, h2, _⟩ := hex
    omega
  | succ fuel ih =>
    intro k hpre hex
    rw [leastExpAux_succ]
    by_cases hk : v ≤ qpow g k
    · rw [if_pos hk]
      exact ⟨hk, hpre⟩
    · rw [if_neg hk]
      apply ih (k + 1)
      · intro j hj
        rcases Nat.lt_succ_iff_lt_or_eq.mp hj with h | h
        · exact hpre j h
        · rw [h]
          exact lt_of_not_le hk
      · obtain ⟨m, h1, h2, h3⟩ := hex
        refine ⟨m, ?_, by omega, h3⟩
        rcases Nat.eq_or_lt_of_le h1 with h | h
        · exact absurd (h ▸ h3) hk
        · omega

theorem ceil_log_spec (g v : ℚ) (hg : 1 < g) (hv : 1 ≤ v) :
    v ≤ qpow g (ceil_log g v) ∧ ∀ j, j < ceil_log g v → qpow g j < v := by
  unfold ceil_log
  apply leastExpAux_spec
  · intro j hj
    omega
  · refine ⟨((v - 1) / (g - 1)).num.toNat, Nat.zero_le _, by omega, ?_⟩
    have hgpos : (0 : ℚ) < g - 1 := by linarith
    have hq0 : (0 : ℚ) ≤ (v - 1) / (g - 1) := div_nonneg (by linarith) hgpos.le
    have hnum0 : 0 ≤ ((v - 1) / (g - 1)).num := Rat.num_nonneg.mpr hq0
    have hnum : (v - 1) / (g - 1) ≤ (((v - 1) / (g - 1)).num : ℚ) := by
      conv_lhs => rw [← Rat.num_div_den ((v - 1) / (g - 1))]
      apply div_le_self
      · exact_mod_cast hnum0
      · exact_mod_cast Nat.one_le_iff_ne_zero.mpr ((v - 1) / (g - 1)).den_nz
    have htn : ((((v - 1) / (g - 1)).num.toNat : Nat) : ℚ) =
        (((v - 1) / (g - 1)).num : ℚ) := by
      exact_mod_cast Int.toNat_of_nonneg hnum0
    have hbern := qpow_bernoulli g hg ((v - 1) / (g - 1)).num.toNat
    have hcancel : (v - 1) / (g - 1) * (g - 1) = v - 1 :=
      div_mul_cancel₀ _ (ne_of_gt hgpos)
    nlinarith [hbern, hnum, htn]

/-! ## Record and repeat helpers -/

theorem pmetrics_record_true_fst (cfg : BucketCfg) (st : List Metric)
    (name : String) (labels : Option Jsonb) (v : ℚ) :
    (pmetrics_record_to_histogram cfg true true st name labels v).1 =
      (increment_by true
        (increment_by true st name labels .histogram ((bucket_for cfg v).1) 1).1
        name labels .histogramSum 0 (truncRat v)).1 := by
  rw [pmetrics_record_to_histogram_eq,
    increment_by_true_snd st name labels .histogram ((bucket_for cfg v).1) 1,
    increment_by_true_snd
      (increment_by true st name labels .histogram ((bucket_for cfg v).1) 1).1
      name labels .histogramSum 0 (truncRat v)]

theorem pmetrics_record_true_snd (cfg : BucketCfg) (st : List Metric)
    (name : String) (labels : Option Jsonb) (v : ℚ) :
    (pmetrics_record_to_histogram cfg true true st name labels v).2 =
      Except.ok
        ((lookupValue st (init_metric_key name labels .histogram ((bucket_for cfg v).1))).getD 0 + 1) := by
  rw [pmetrics_record_to_histogram_eq,
    increment_by_true_snd st name labels .histogram ((bucket_for cfg v).1) 1,
    increment_by_true_snd
      (increment_by true st name labels .histogram ((bucket_for cfg v).1) 1).1
      name labels .histogramSum 0 (truncRat v)]

theorem hist_keys_distinct (name : String) (labels : Option Jsonb) (b : Int) :
    keyId (init_metric_key name labels .histogramSum 0) ≠
      keyId (init_metric_key name labels .histogram b) := by
  intro hcontra
  have h2 := congrArg (fun p => p.2.1) hcontra
  simp [keyId, init_metric_key, typeVal] at h2

theorem repeat_increment_succ (name : String) (labels : Option Jsonb)
    (type : MetricType) (bucket : Int) (n : Nat) (st : List Metric) :
    repeat_increment name labels type bucket (n + 1) st =
      ((repeat_increment name labels type bucket n
          (increment_by true st name labels type bucket 1).1).1,
        (match (increment_by true st name labels type bucket 1).2 with
          | .ok v => v
          | .error _ => 0) ::
        (repeat_increment name labels type bucket n
          (increment_by true st name labels type bucket 1).1).2) := rfl

theorem repeat_increment_from (name : String) (labels : Option Jsonb)
    (type : MetricType) (bucket : Int) :
    ∀ (n : Nat) (st : List Metric) (c : Int),
      lookupValue st (init_metric_key name labels type bucket) = some c →
      (repeat_increment name labels type bucket n st).2 = intRangeFrom (c + 1) n
      ∧ lookupValue (repeat_increment name labels type bucket n st).1
          (init_metric_key name labels type bucket) = some (c + n) := by
  intro n
  induction n with
  | zero =>
    intro st c h
    refine ⟨rfl, ?_⟩
    show lookupValue st (init_metric_key name labels type bucket) = some (c + ((0 : Nat) : Int))
    rw [h]
    simp
  | succ n ih =>
    intro st c h
    rw [repeat_increment_succ]
    have hsnd := increment_by_true_snd st name labels type bucket 1
    rw [h] at hsnd
    simp only [Option.getD_some] at hsnd
    have hlook := increment_by_true_lookup st name labels type bucket 1
    rw [h] at hlook
    simp only [Option.getD_some] at hlook
    obtain ⟨ih1, ih2⟩ :=
      ih (increment_by true st name labels type bucket 1).1 (c + 1) hlook
    rw [hsnd]
    dsimp only
    constructor
    · rw [ih1]
      rfl
    · rw [ih2]
      congr 1
      push_cast
      ring

/-! ## Claims -/

/-- C1 counterexample: with the default configuration (variability 0.1,
upper bound 30000), a value below 1.0 gets bucket index 0 and
`bucket_for` returns the bucket upper bound `(int) pow(gamma, 0) = 1`,
not 0: `bucket_for(0.5) = 1`, refuting the claim that
`bucket_for(0.5) = 0`. -/
theorem bucket_for_half_counterexample :
    (bucket_for default_config (1 / 2)).1 = 1 ∧
      (bucket_for default_config (1 / 2)).1 ≠ 0 :=
  of_decide_eq_true (by with_unfolding_all rfl)

/-- C1 (amended): for every observed value strictly below 1.0 the bucket
index is 0 and `bucket_for` returns the bucket upper bound
`gamma ^ 0 = 1` (no truncation notice, provided the configured upper
bound is at least 1); in particular `bucket_for(0.5) = 1`, not 0. -/
theorem bucket_for_lt_one (cfg : BucketCfg) (v : ℚ) (hv : v < 1)
    (hub : 1 ≤ cfg.ub) : bucket_for cfg v = (1, false) := by
  have hidx : bucket_index cfg v = 0 := by
    unfold bucket_index
    rw [if_pos hv]
  have hraw : raw_bucket_bound cfg v = 1 := by
    unfold raw_bucket_bound
    rw [hidx]
    with_unfolding_all rfl
  unfold bucket_for
  rw [hraw, if_neg (by omega)]

/-- Witness for C1 (amended) at `gamma = 2`, upper bound 4,
value `1/2`. -/
theorem bucket_for_lt_one_witness :
    ((1 : ℚ) / 2 < 1 ∧ 1 ≤ (⟨2, 4⟩ : BucketCfg).ub) ∧
      bucket_for ⟨2, 4⟩ (1 / 2) = (1, false) :=
  ⟨⟨of_decide_eq_true (by with_unfolding_all rfl),
    of_decide_eq_true (by with_unfolding_all rfl)⟩,
    bucket_for_lt_one ⟨2, 4⟩ (1 / 2)
      (of_decide_eq_true (by with_unfolding_all rfl))
      (of_decide_eq_true (by with_unfolding_all rfl))⟩

/-- C9: whenever the computed bucket upper bound
`(int) pow(gamma, bucket)` exceeds the configured upper bound,
`bucket_for` returns the clamped `buckets_upper_bound` and emits the
truncation notice; all such values collapse to the same clamped
bucket. -/
theorem bucket_for_clamps (cfg : BucketCfg) (v1 v2 : ℚ)
    (h1 : cfg.ub < raw_bucket_bound cfg v1)
    (h2 : cfg.ub < raw_bucket_bound cfg v2) :
    bucket_for cfg v1 = (cfg.ub, true) ∧
      bucket_for cfg v1 = bucket_for cfg v2 := by
  unfold bucket_for
  rw [if_pos h1, if_pos h2]
  exact ⟨rfl, rfl⟩

/-- Witness for C9 at `gamma = 2`, upper bound 4 (an initialized
boundary), values 5 and 9 (buckets 8 and 16, both above the bound). -/
theorem bucket_for_clamps_witness :
    ((⟨2, 4⟩ : BucketCfg).ub < raw_bucket_bound ⟨2, 4⟩ 5 ∧
      (⟨2, 4⟩ : BucketCfg).ub < raw_bucket_bound ⟨2, 4⟩ 9) ∧
      (bucket_for ⟨2, 4⟩ 5 = ((⟨2, 4⟩ : BucketCfg).ub, true) ∧
        bucket_for ⟨2, 4⟩ 5 = bucket_for ⟨2, 4⟩ 9) :=
  ⟨⟨of_decide_eq_true (by with_unfolding_all rfl),
    of_decide_eq_true (by with_unfolding_all rfl)⟩,
    bucket_for_clamps ⟨2, 4⟩ 5 9
      (of_decide_eq_true (by with_unfolding_all rfl))
      (of_decide_eq_true (by with_unfolding_all rfl))⟩

/-- C3: inserting a fresh entry whose probe key carries caller-local
labels fails with an out-of-memory error when the arena allocation for
the label copy fails, and the directory is unchanged: no entry, partial
or otherwise, is visible afterwards. -/
theorem increment_oom_atomic (st : List Metric) (name : String) (j : Jsonb)
    (type : MetricType) (bucket amount : Int)
    (h : lookupValue st (init_metric_key name (some j) type bucket) = Option.none) :
    increment_by false st name (some j) type bucket amount =
      (st, Except.error PMErr.outOfMemory) := by
  rw [increment_by_eq, (updateExisting_none_iff _ _ st).mpr h]
  have hc : metric_key_copy false (init_metric_key name (some j) type bucket) =
      .error .outOfMemory := rfl
  rw [hc]

/-- Witness for C3: a fresh labelled counter insert into the empty table
with allocation failing. -/
theorem increment_oom_atomic_witness :
    lookupValue [] (init_metric_key "m" (some j1ex) .counter 0) = Option.none ∧
      increment_by false [] "m" (some j1ex) .counter 0 1 =
        ([], Except.error PMErr.outOfMemory) :=
  ⟨rfl, increment_oom_atomic [] "m" j1ex .counter 0 1 rfl⟩

/-- C7: starting from a fresh key, N repeated increments with amount 1
return the running values 1, 2, ..., N and leave the stored value at
N. -/
theorem repeated_increment_totals (name : String) (labels : Option Jsonb)
    (st : List Metric) (n : Nat)
    (h : lookupValue st (init_metric_key name labels .counter 0) = Option.none) :
    (repeat_increment name labels .counter 0 n st).2 = intRangeFrom 1 n ∧
      (0 < n →
        lookupValue (repeat_increment name labels .counter 0 n st).1
          (init_metric_key name labels .counter 0) = some (n : Int)) := by
  cases n with
  | zero => exact ⟨rfl, by omega⟩
  | succ n =>
    rw [repeat_increment_succ]
    have hsnd := increment_by_true_snd st name labels .counter 0 1
    rw [h] at hsnd
    simp only [Option.getD_none, zero_add] at hsnd
    have hlook := increment_by_true_lookup st name labels .counter 0 1
    rw [h] at hlook
    simp only [Option.getD_none, zero_add] at hlook
    obtain ⟨ih1, ih2⟩ := repeat_increment_from name labels .counter 0 n
      (increment_by true st name labels .counter 0 1).1 1 hlook
    rw [hsnd]
    dsimp only
    constructor
    · rw [ih1]
      rfl
    · intro _
      rw [ih2]
      congr 1
      push_cast
      ring

/-- Witness for C7: three increments of a fresh unlabelled counter. -/
theorem repeated_increment_totals_witness :
    lookupValue [] (init_metric_key "m" Option.none .counter 0) = Option.none ∧
      ((repeat_increment "m" Option.none .counter 0 3 []).2 = intRangeFrom 1 3 ∧
        (0 < 3 →
          lookupValue (repeat_increment "m" Option.none .counter 0 3 []).1
            (init_metric_key "m" Option.none .counter 0) = some ((3 : Nat) : Int))) :=
  ⟨rfl, repeated_increment_totals "m" Option.none [] 3 rfl⟩

/-- C8: two consecutive gauge sets of v1 then v2 leave the stored value
exactly v2 (last write wins, never v1 + v2), and the second call
returns v2. -/
theorem set_gauge_last_write_wins (st : List Metric) (name : String)
    (labels : Option Jsonb) (v1 v2 : Int) :
    (pmetrics_set_gauge true (pmetrics_set_gauge true st name labels v1).1
        name labels v2).2 = Except.ok v2 ∧
      lookupValue (pmetrics_set_gauge true
          (pmetrics_set_gauge true st name labels v1).1 name labels v2).1
        (init_metric_key name labels .gauge 0) = some v2 :=
  ⟨pmetrics_set_gauge_true_snd _ name labels v2,
    pmetrics_set_gauge_true_lookup _ name labels v2⟩

set_option maxRecDepth 40000 in
/-- C2 counterexample: for the negative value `-3/2` the `HistogramSum`
entry is incremented by the value cast to `int64` (truncation toward
zero, `-1`), not by `floor(value) = -2`: recording `-3/2` into the empty
table leaves the sum entry at `-1`, refuting the claim that the sum is
incremented by `floor(value)`. -/
theorem record_histogram_floor_counterexample :
    lookupValue (pmetrics_record_to_histogram ⟨2, 4⟩ true true [] "m"
          Option.none (-(3 / 2))).1
        (init_metric_key "m" Option.none .histogramSum 0) = some (-1) ∧
      ratFloor (-(3 / 2)) = -2 ∧
      some ((-1 : Int)) ≠ some (ratFloor (-(3 / 2) : ℚ)) :=
  of_decide_eq_true (by with_unfolding_all rfl)

/-- C2 (amended): one successful `record_histogram` call produces
exactly two entry updates: the `HistogramBucket` entry at
`bucket_for(value)` is incremented by 1, the `HistogramSum` entry at
bucket 0 is incremented by the value truncated toward zero (the C
`(int64)` cast — equal to `floor(value)` for nonnegative values), and
every other entry is untouched. -/
theorem record_histogram_two_updates (cfg : BucketCfg) (st : List Metric)
    (name : String) (labels : Option Jsonb) (v : ℚ) :
    lookupValue (pmetrics_record_to_histogram cfg true true st name labels v).1
        (init_metric_key name labels .histogram ((bucket_for cfg v).1)) =
      some ((lookupValue st
        (init_metric_key name labels .histogram ((bucket_for cfg v).1))).getD 0 + 1) ∧
    lookupValue (pmetrics_record_to_histogram cfg true true st name labels v).1
        (init_metric_key name labels .histogramSum 0) =
      some ((lookupValue st
        (init_metric_key name labels .histogramSum 0)).getD 0 + truncRat v) ∧
    (∀ k : MetricKey,
      keyId k ≠ keyId (init_metric_key name labels .histogram ((bucket_for cfg v).1)) →
      keyId k ≠ keyId (init_metric_key name labels .histogramSum 0) →
      lookupValue (pmetrics_record_to_histogram cfg true true st name labels v).1 k =
        lookupValue st k) := by
  rw [pmetrics_record_true_fst]
  refine ⟨?_, ?_, ?_⟩
  · rw [increment_by_frame true _ name labels .histogramSum 0 (truncRat v) _
      (by
        intro hcontra
        exact hist_keys_distinct name labels ((bucket_for cfg v).1) hcontra.symm)]
    exact increment_by_true_lookup st name labels .histogram ((bucket_for cfg v).1) 1
  · rw [increment_by_true_lookup
      (increment_by true st name labels .histogram ((bucket_for cfg v).1) 1).1
      name labels .histogramSum 0 (truncRat v)]
    rw [increment_by_frame true st name labels .histogram ((bucket_for cfg v).1) 1 _
      (hist_keys_distinct name labels ((bucket_for cfg v).1))]
  · intro k hk1 hk2
    rw [increment_by_frame true _ name labels .histogramSum 0 (truncRat v) k hk2]
    exact increment_by_frame true st name labels .histogram ((bucket_for cfg v).1) 1 k hk1

set_option maxRecDepth 40000 in
/-- C4 counterexample: `delete_metrics_by_name_labels` removes a stored
entry whose arena-resident labels (`{"a": 1.00}`) are semantically equal
to, but serialized differently from, the probe labels (`{"a": 1.0}`),
even though the directory's own comparison function distinguishes the
two keys — so deletion is not decided by byte-identical serialization. -/
theorem delete_semantic_eq_counterexample :
    delete_metrics_by_name_labels [⟨storedKeyEx, 7⟩] "m" (some j1ex) = ([], 1) ∧
      metric_compare_dshash (init_metric_key "m" (some j1ex) .counter 0)
        storedKeyEx ≠ 0 :=
  of_decide_eq_true (by with_unfolding_all rfl)

/-- C4 (amended): lookup and insert decide label equality by exact
byte-identical canonical serialization (two keys match exactly when
their names, kinds, buckets and serialized label bytes coincide), but
delete matches labels with the semantics-aware deep comparison
`compareJsonbContainers`, which can equate differently-serialized
documents (such as `{"a": 1.0}` and `{"a": 1.00}`). -/
theorem label_equality_modes :
    (∀ k1 k2 : MetricKey,
      metric_compare_dshash k1 k2 = 0 ↔ keyId k1 = keyId k2) ∧
    (∀ (st : List Metric) (name : String) (labels : Option Jsonb),
      (delete_metrics_by_name_labels st name labels).1 =
        st.filter (fun m => !(delete_match name labels m.key))) ∧
    (compareJsonbContainers j1ex j2ex = 0 ∧ jsonbBytes j1ex ≠ jsonbBytes j2ex) :=
  ⟨metric_compare_eq_zero_iff,
    fun st name labels => (deleteLoop_filter name labels st).1,
    of_decide_eq_true (by with_unfolding_all rfl)⟩

/-- C5 counterexample: the `clear_metrics` entry point does not consult
`pmetrics.enabled`; even with the flag false it removes every entry and
returns the deletion count, so clear is not a no-op returning "not
recorded". -/
theorem clear_ignores_enabled_counterexample :
    clear_metrics [mEx] = ([], some 1) ∧ [mEx] ≠ ([] : List Metric) :=
  of_decide_eq_true (by with_unfolding_all rfl)

/-- C5 (amended): with the enabled flag false, increment, set, record
and delete are no-ops returning "not recorded" (SQL NULL), but clear is
not gated on the flag: it always empties the table and returns the
prior entry count. -/
theorem disabled_ops_noop (aOk a1 a2 : Bool) (cfg : BucketCfg)
    (st : List Metric) (name : String) (labels : Option Jsonb)
    (value : Int) (v : ℚ) :
    increment_counter false aOk st name labels = (st, Option.none) ∧
    set_gauge false aOk st name labels value = (st, Option.none) ∧
    record_to_histogram cfg false a1 a2 st name labels v = (st, Option.none) ∧
    delete_metric false st name labels = (st, Option.none) ∧
    clear_metrics st = ([], some (st.length : Int)) := by
  refine ⟨rfl, rfl, rfl, rfl, ?_⟩
  unfold clear_metrics pmetrics_clear_metrics
  rw [clearLoop_spec st 0]
  simp

/-- C6: every store operation leaves each physically stored entry with
labels in `Absent` or `ArenaResident` form, never `LocalProbe`: the
invariant is preserved by increment, set, record, delete and clear. -/
theorem stored_labels_invariant (st : List Metric) (aOk a1 a2 : Bool)
    (cfg : BucketCfg) (name : String) (labels : Option Jsonb)
    (type : MetricType) (bucket amount value : Int) (v : ℚ)
    (h : allStored st = true) :
    allStored (increment_by aOk st name labels type bucket amount).1 = true ∧
    allStored (pmetrics_set_gauge aOk st name labels value).1 = true ∧
    allStored (pmetrics_record_to_histogram cfg a1 a2 st name labels v).1 = true ∧
    allStored (delete_metrics_by_name_labels st name labels).1 = true ∧
    allStored (pmetrics_clear_metrics st).1 = true :=
  ⟨increment_by_allStored aOk st name labels type bucket amount h,
    pmetrics_set_gauge_allStored aOk st name labels value h,
    pmetrics_record_allStored cfg a1 a2 st name labels v h,
    delete_allStored st name labels h,
    clear_allStored st⟩

/-- Witness for C6: all five operations applied to a one-entry table
whose stored labels are arena-resident. -/
theorem stored_labels_invariant_witness :
    allStored [⟨storedKeyEx, 7⟩] = true ∧
      (allStored (increment_by true [⟨storedKeyEx, 7⟩] "m" (some j1ex) .counter 0 1).1 = true ∧
        allStored (pmetrics_set_gauge true [⟨storedKeyEx, 7⟩] "m" (some j1ex) 5).1 = true ∧
        allStored (pmetrics_record_to_histogram ⟨2, 4⟩ true true [⟨storedKeyEx, 7⟩]
            "m" (some j1ex) 3).1 = true ∧
        allStored (delete_metrics_by_name_labels [⟨storedKeyEx, 7⟩] "m" (some j1ex)).1 = true ∧
        allStored (pmetrics_clear_metrics [⟨storedKeyEx, 7⟩]).1 = true) :=
  ⟨of_decide_eq_true (by with_unfolding_all rfl),
    stored_labels_invariant [⟨storedKeyEx, 7⟩] true true true ⟨2, 4⟩ "m"
      (some j1ex) .counter 0 1 5 3
      (of_decide_eq_true (by with_unfolding_all rfl))⟩

/-- C10: clear removes every entry and returns exactly the table's
prior entry count, and delete returns exactly the number of entries it
removed (the count before minus the count after). -/
theorem delete_clear_return_counts (st : List Metric) (name : String)
    (labels : Option Jsonb) :
    pmetrics_clear_metrics st = ([], (st.length : Int)) ∧
      (delete_metrics_by_name_labels st name labels).2 =
        (st.length : Int) -
          ((delete_metrics_by_name_labels st name labels).1.length : Int) := by
  constructor
  · unfold pmetrics_clear_metrics
    rw [clearLoop_spec st 0]
    simp
  · exact deleteLoop_count name labels st

end PMetricsModel
